/-
Verification of the cosmic-rdp-server specification against a shallow
embedding of the repository's Rust sources.

Each section embeds one module of the repository:
* `Capture`  — crates/rdp-capture/src/frame.rs
* `Input`    — crates/rdp-input/src/libei.rs
* `Egfx`     — crates/cosmic-ext-rdp-server/src/egfx.rs
* `Broker`   — crates/cosmic-ext-rdp-broker/src/{x224,session,proxy,broker}.rs

Bytes are modelled as `Nat` (values < 256 where produced by the code),
Rust strings as lists of Unicode scalar values (`List Nat`), fallible
Rust code as `Option`/`Except`, and a Rust panic as the `.error` branch
of an `Except`.
-/
import Mathlib

set_option maxRecDepth 10000

namespace Capture

/-- Pixel format of captured frames (frame.rs `PixelFormat`). -/
inductive PixelFormat
  | Bgra
  | Rgba
deriving DecidableEq, Repr

/-- A rectangular damage region (frame.rs `DamageRect`). -/
structure DamageRect where
  x : Int
  y : Int
  width : Nat
  height : Nat
deriving DecidableEq, Repr

/-- A captured video frame (frame.rs `CapturedFrame`); pixel data is a
byte list. -/
structure CapturedFrame where
  data : List Nat
  width : Nat
  height : Nat
  format : PixelFormat
  stride : Nat
  sequence : Nat
  damage : Option (List DamageRect)
deriving DecidableEq, Repr

/-- The loop body of `ensure_alpha_opaque`: for every complete 4-byte
chunk of the data, set byte 3 to `0xFF` (`chunks_exact_mut(4)` leaves a
trailing partial chunk untouched). -/
def setAlphaFF : List Nat → List Nat
  | b0 :: b1 :: b2 :: _ :: rest => b0 :: b1 :: b2 :: 0xFF :: setAlphaFF rest
  | l => l

/-- frame.rs `CapturedFrame::ensure_alpha_opaque`: set the alpha byte of
every pixel to `0xFF`, but only when the frame format is `Bgra`. -/
def ensureAlphaOpaque (f : CapturedFrame) : CapturedFrame :=
  if f.format = PixelFormat.Bgra then { f with data := setAlphaFF f.data } else f

/-- The alpha bytes of a pixel buffer: byte 3 of each complete 4-byte
chunk. -/
def alphaBytes : List Nat → List Nat
  | _ :: _ :: _ :: a :: rest => a :: alphaBytes rest
  | _ => []

theorem alphaBytes_setAlphaFF : ∀ l : List Nat,
    alphaBytes (setAlphaFF l) = (alphaBytes l).map fun _ => 0xFF
  | [] => rfl
  | [_] => rfl
  | [_, _] => rfl
  | [_, _, _] => rfl
  | _ :: _ :: _ :: _ :: rest => by
      simp [setAlphaFF, alphaBytes, alphaBytes_setAlphaFF rest]

end Capture

namespace Input

/-- Evdev keycode for Caps Lock (libei.rs `KEY_CAPSLOCK`). -/
def KEY_CAPSLOCK : Nat := 66
/-- Evdev keycode for Num Lock (libei.rs `KEY_NUMLOCK`). -/
def KEY_NUMLOCK : Nat := 77
/-- Evdev keycode for Scroll Lock (libei.rs `KEY_SCROLLLOCK`). -/
def KEY_SCROLLLOCK : Nat := 78

/-- Shadow state of the lock-key indicators (libei.rs `LockState`). -/
structure LockState where
  caps_lock : Bool
  num_lock : Bool
  scroll_lock : Bool
deriving DecidableEq, Repr

/-- libei.rs `LockState::locks_to_toggle`: the evdev keycodes whose lock
state differs between `self` and `target`, in caps/num/scroll order. -/
def locks_to_toggle (s target : LockState) : List Nat :=
  (if s.caps_lock ≠ target.caps_lock then [KEY_CAPSLOCK] else []) ++
  (if s.num_lock ≠ target.num_lock then [KEY_NUMLOCK] else []) ++
  (if s.scroll_lock ≠ target.scroll_lock then [KEY_SCROLLLOCK] else [])

/-- libei.rs `LockState::toggle_on_press`: flip the shadow flag for a
lock keycode, leave the state unchanged for any other keycode. -/
def toggle_on_press (s : LockState) (evdev : Nat) : LockState :=
  if evdev = KEY_CAPSLOCK then { s with caps_lock := ¬s.caps_lock }
  else if evdev = KEY_NUMLOCK then { s with num_lock := ¬s.num_lock }
  else if evdev = KEY_SCROLLLOCK then { s with scroll_lock := ¬s.scroll_lock }
  else s

/-- One injected key event: keycode and whether it is a press (`true`)
or a release (`false`). -/
structure KeyEvent where
  code : Nat
  isPress : Bool
deriving DecidableEq, Repr

/-- The parts of libei.rs `EiInput` relevant to lock synchronisation:
whether a keyboard capability was discovered, the shadow lock state, and
the log of key events injected so far. -/
structure EiInput where
  keyboard : Bool
  lock_state : LockState
  events : List KeyEvent
deriving DecidableEq, Repr

/-- libei.rs `EiInput::toggle_lock_key`: if no keyboard capability is
present, do nothing; otherwise inject press then release of the key
(each followed by a frame) and flip the shadow flag. -/
def toggle_lock_key (st : EiInput) (evdev : Nat) : EiInput :=
  if st.keyboard then
    { st with
        events := st.events ++ [⟨evdev, true⟩, ⟨evdev, false⟩],
        lock_state := toggle_on_press st.lock_state evdev }
  else st

/-- libei.rs `EiInput::synchronize_locks`: compare the client-reported
lock state against the shadow state and toggle every mismatched lock
key. -/
def synchronize_locks (st : EiInput) (caps num scroll : Bool) : EiInput :=
  let target : LockState := ⟨caps, num, scroll⟩
  let to_toggle := locks_to_toggle st.lock_state target
  if to_toggle = [] then st
  else to_toggle.foldl toggle_lock_key st

end Input

/-! ## Claim C9 — ensure_alpha_opaque -/

/-- C9 counterexample: the claim quantifies over *every* captured frame,
but `ensure_alpha_opaque` only rewrites the alpha bytes when the frame
format is `Bgra`. An `Rgba` frame whose alpha bytes are all `0` keeps
alpha `0` (not `0xFF`) after the call. -/
theorem C9_alpha_counterexample :
    (∀ a ∈ Capture.alphaBytes
        (Capture.CapturedFrame.mk [0, 0, 0, 0] 1 1 Capture.PixelFormat.Rgba 4 0 none).data,
      a = 0) ∧
    ¬ (∀ a ∈ Capture.alphaBytes
        (Capture.ensureAlphaOpaque
          (Capture.CapturedFrame.mk [0, 0, 0, 0] 1 1 Capture.PixelFormat.Rgba 4 0 none)).data,
      a = 0xFF) := by
  decide

/-- C9 (amended): for every captured frame in `Bgra` format whose alpha
bytes are all `0`, after `ensure_alpha_opaque` every alpha byte of the
frame's data equals `0xFF` (the alpha bytes are the constant-`0xFF`
image of the original ones). -/
theorem C9_alpha_opaque (f : Capture.CapturedFrame)
    (hfmt : f.format = Capture.PixelFormat.Bgra)
    (_hzero : ∀ a ∈ Capture.alphaBytes f.data, a = 0) :
    (∀ a ∈ Capture.alphaBytes (Capture.ensureAlphaOpaque f).data, a = 0xFF) ∧
    Capture.alphaBytes (Capture.ensureAlphaOpaque f).data =
      (Capture.alphaBytes f.data).map fun _ => 0xFF := by
  have hdata : Capture.alphaBytes (Capture.ensureAlphaOpaque f).data =
      (Capture.alphaBytes f.data).map fun _ => 0xFF := by
    simp only [Capture.ensureAlphaOpaque, hfmt, if_pos]
    exact Capture.alphaBytes_setAlphaFF f.data
  refine ⟨?_, hdata⟩
  intro a ha
  rw [hdata] at ha
  simp only [List.mem_map] at ha
  obtain ⟨_, _, rfl⟩ := ha
  rfl

/-- C9 witness: the amended theorem applied to a concrete 2-pixel `Bgra`
frame with zero alpha. -/
theorem C9_alpha_opaque_witness :
    Capture.alphaBytes
      (Capture.ensureAlphaOpaque
        (Capture.CapturedFrame.mk [1, 2, 3, 0, 4, 5, 6, 0] 2 1
          Capture.PixelFormat.Bgra 8 0 none)).data =
      (Capture.alphaBytes
        (Capture.CapturedFrame.mk [1, 2, 3, 0, 4, 5, 6, 0] 2 1
          Capture.PixelFormat.Bgra 8 0 none).data).map fun _ => 0xFF :=
  ( C9_alpha_opaque
    (Capture.CapturedFrame.mk [1, 2, 3, 0, 4, 5, 6, 0] 2 1 Capture.PixelFormat.Bgra 8 0 none)
    rfl (by decide)).2

/-! ## Claim C8 — lock-key synchronisation -/

/-- C8 counterexample: the claim quantifies over every shadow/target
pair, but when no keyboard capability was discovered,
`toggle_lock_key` does nothing, so after `synchronize_locks` the shadow
state does not equal the target and no key is toggled even though the
states differ. -/
theorem C8_sync_counterexample :
    (Input.synchronize_locks ⟨false, ⟨false, false, false⟩, []⟩ true false false).lock_state
        ≠ ⟨true, false, false⟩ ∧
    (Input.synchronize_locks ⟨false, ⟨false, false, false⟩, []⟩ true false false).events
        = [] := by
  decide

/-- C8 (amended): when the keyboard capability is present, for every
shadow lock state `S` and client-reported target `T`,
`synchronize_locks` injects exactly one press+release pair for each lock
key on which `S` and `T` differ (in particular no events when `S = T`),
and afterwards the shadow lock state equals `T`. -/
theorem C8_synchronize_locks (st : Input.EiInput) (caps num scroll : Bool)
    (hkb : st.keyboard = true) :
    (Input.synchronize_locks st caps num scroll).lock_state = ⟨caps, num, scroll⟩ ∧
    (Input.synchronize_locks st caps num scroll).events =
      st.events ++ (Input.locks_to_toggle st.lock_state ⟨caps, num, scroll⟩).flatMap
        (fun k => [⟨k, true⟩, ⟨k, false⟩]) ∧
    (st.lock_state = ⟨caps, num, scroll⟩ →
      Input.synchronize_locks st caps num scroll = st) := by
  obtain ⟨kb, ⟨c, n, sc⟩, ev⟩ := st
  simp only at hkb
  subst hkb
  cases c <;> cases n <;> cases sc <;> cases caps <;> cases num <;> cases scroll <;>
    simp [Input.synchronize_locks, Input.locks_to_toggle, Input.toggle_lock_key,
      Input.toggle_on_press, Input.KEY_CAPSLOCK, Input.KEY_NUMLOCK, Input.KEY_SCROLLLOCK]

/-- C8 witness: the amended theorem applied to a concrete state with a
keyboard, shadow all-off and target caps-on. -/
theorem C8_synchronize_locks_witness :
    (Input.synchronize_locks ⟨true, ⟨false, false, false⟩, []⟩ true false false).lock_state
      = ⟨true, false, false⟩ :=
  (C8_synchronize_locks ⟨true, ⟨false, false, false⟩, []⟩ true false false rfl).1

namespace Egfx

/-- egfx.rs `ZGFX_MAX_SEGMENT_DATA`: maximum uncompressed data per ZGFX
segment, excluding the 1-byte flags/type byte. -/
def ZGFX_MAX_SEGMENT_DATA : Nat := 65534

/-- Little-endian byte serialisation of a `u16` (Rust
`u16::to_le_bytes` after an `as u16` truncating cast). -/
def toLE16 (n : Nat) : List Nat := [n % 256, n / 256 % 256]

/-- Little-endian byte serialisation of a `u32` (Rust
`u32::to_le_bytes` after an `as u32` truncating cast). -/
def toLE32 (n : Nat) : List Nat :=
  [n % 256, n / 256 % 256, n / 65536 % 256, n / 16777216 % 256]

/-- Rust `slice::chunks(n)`: split a list into consecutive chunks of
`n` elements, the last chunk possibly shorter. Empty when `n = 0`
(Rust panics for `n = 0`; the source only calls it with 65534). -/
def chunksOf (n : Nat) (l : List Nat) : List (List Nat) :=
  if h : n = 0 ∨ l = [] then []
  else l.take n :: chunksOf n (l.drop n)
termination_by l.length
decreasing_by
  push_neg at h
  have hl : 0 < l.length := List.length_pos.mpr h.2
  simp only [List.length_drop]
  omega

theorem chunksOf_flatten (n : Nat) (hn : 0 < n) (l : List Nat) :
    (chunksOf n l).flatten = l := by
  rw [chunksOf]
  split
  · rename_i h
    rcases h with h | h
    · omega
    · simp [h]
  · rename_i h
    push_neg at h
    have hne : l ≠ [] := h.2
    have ih := chunksOf_flatten n hn (l.drop n)
    simp [ih]
termination_by l.length
decreasing_by
  have hl : 0 < l.length := List.length_pos.mpr hne
  simp only [List.length_drop]
  omega

theorem chunksOf_mem (n : Nat) (l : List Nat) :
    ∀ c ∈ chunksOf n l, c.length ≤ n ∧ c ≠ [] := by
  intro c hc
  rw [chunksOf] at hc
  split at hc
  · simp at hc
  · rename_i h
    push_neg at h
    have hne : l ≠ [] := h.2
    rcases List.mem_cons.mp hc with rfl | hmem
    · refine ⟨by simp, ?_⟩
      have hl : 0 < l.length := List.length_pos.mpr hne
      simp only [ne_eq, List.take_eq_nil_iff]
      push_neg
      exact ⟨by omega, hne⟩
    · exact chunksOf_mem n (l.drop n) c hmem
termination_by l.length
decreasing_by
  have hl : 0 < l.length := List.length_pos.mpr hne
  simp only [List.length_drop]
  omega

theorem chunksOf_length_65534 (l : List Nat) :
    (chunksOf 65534 l).length = (l.length + 65533) / 65534 := by
  rw [chunksOf]
  split
  · rename_i h
    rcases h with h | h
    · omega
    · simp [h]
  · rename_i h
    push_neg at h
    have hne : l ≠ [] := h.2
    have ih := chunksOf_length_65534 (l.drop 65534)
    have hl : 0 < l.length := List.length_pos.mpr hne
    simp only [List.length_cons, ih, List.length_drop]
    omega
termination_by l.length
decreasing_by
  have hl : 0 < l.length := List.length_pos.mpr hne
  simp only [List.length_drop]
  omega

/-- egfx.rs `zgfx_build_multipart`: MULTIPART (`0xE1`) payload — the
descriptor, the segment count as little-endian `u16`, the uncompressed
size as little-endian `u32`, then per chunk its segment size (chunk
length + 1 flag byte) as little-endian `u32`, the `0x04` flags/type
byte, and the chunk bytes. -/
def zgfx_build_multipart (payload : List Nat) : List Nat :=
  let chunks := chunksOf ZGFX_MAX_SEGMENT_DATA payload
  0xE1 :: (toLE16 chunks.length ++ toLE32 payload.length ++
    chunks.flatMap fun c => toLE32 (1 + c.length) ++ 0x04 :: c)

/-- egfx.rs `zgfx_wrap_messages` (cosmic-ext-rdp-server): concatenate
all encoded outbound EGFX PDUs into one buffer and wrap it in a single
ZGFX message. Each element of `messages` is the `encode_vec` byte
encoding of one PDU (PDUs whose encoding fails are skipped by the
source and are correspondingly absent from the list). -/
def zgfx_wrap_messages (messages : List (List Nat)) : List (List Nat) :=
  if messages = [] then []
  else
    let combined := messages.flatten
    if combined.length ≤ ZGFX_MAX_SEGMENT_DATA then
      [0xE0 :: 0x04 :: combined]
    else
      [zgfx_build_multipart combined]

/-- The state consulted by `EgfxController::send_frame`, with the
outcomes of the calls it makes: whether an event sender is registered
(`event_tx`), the mapped surface (`surface_id`), whether
`should_backpressure()` reports backpressure, the frame id returned by
`send_avc420_frame` (`none` when the pipeline rejects the frame), the
recorded DVC channel id, and whether the `ServerEvent::DvcOutput` send
succeeds. -/
structure SendFrameSt where
  event_tx : Bool
  surface_id : Option Nat
  backpressure : Bool
  accepted_frame_id : Option Nat
  dvc_channel_id : Option Nat
  send_ok : Bool
deriving DecidableEq, Repr

/-- egfx.rs `EgfxController::send_frame`: early-return `false` when the
event sender is missing, no surface is mapped, backpressure is active,
the pipeline rejects the frame, or no DVC channel id is recorded;
otherwise return whether the event send succeeded. The frame payload
and geometry do not influence the control flow modelled here. -/
def send_frame (st : SendFrameSt) (_h264_data : List Nat)
    (_width _height _timestamp_ms : Nat) : Bool :=
  if ¬ st.event_tx then false
  else match st.surface_id with
  | none => false
  | some _ =>
    if st.backpressure then false
    else match st.accepted_frame_id with
    | none => false
    | some _ =>
      match st.dvc_channel_id with
      | none => false
      | some _ => st.send_ok

end Egfx

/-! ## Claim C3 — ZGFX wrapping of outbound EGFX PDUs -/

/-- C3: all encoded outbound EGFX PDUs of one bridge call are
concatenated into a single buffer `B` and emitted as one ZGFX-wrapped
DVC message. If `|B| ≤ 65534` the body is `[0xE0, 0x04, B…]` of length
`|B| + 2`; otherwise the body is `0xE1`, the segment count
`N = ⌈|B| / 65534⌉` as little-endian `u16`, `|B|` as little-endian
`u32`, then exactly `N` segments, each the little-endian `u32` segment
size (chunk length + 1), the byte `0x04`, and a non-empty chunk of at
most 65534 bytes; the chunks concatenate back to `B`. -/
theorem C3_zgfx_wrap_messages (messages : List (List Nat)) (hne : messages ≠ []) :
    (messages.flatten.length ≤ 65534 →
      Egfx.zgfx_wrap_messages messages = [0xE0 :: 0x04 :: messages.flatten] ∧
      (0xE0 :: 0x04 :: messages.flatten).length = messages.flatten.length + 2) ∧
    (65534 < messages.flatten.length →
      Egfx.zgfx_wrap_messages messages =
        [0xE1 :: (Egfx.toLE16 (Egfx.chunksOf 65534 messages.flatten).length ++
          Egfx.toLE32 messages.flatten.length ++
          (Egfx.chunksOf 65534 messages.flatten).flatMap
            (fun c => Egfx.toLE32 (1 + c.length) ++ 0x04 :: c))] ∧
      (Egfx.chunksOf 65534 messages.flatten).length =
        (messages.flatten.length + 65533) / 65534 ∧
      (Egfx.chunksOf 65534 messages.flatten).flatten = messages.flatten ∧
      ∀ c ∈ Egfx.chunksOf 65534 messages.flatten, c.length ≤ 65534 ∧ c ≠ []) := by
  constructor
  · intro hle
    refine ⟨?_, by simp⟩
    simp only [Egfx.zgfx_wrap_messages, Egfx.ZGFX_MAX_SEGMENT_DATA]
    rw [if_neg (by simpa using hne), if_pos hle]
  · intro hgt
    refine ⟨?_, Egfx.chunksOf_length_65534 _,
      Egfx.chunksOf_flatten 65534 (by omega) _, Egfx.chunksOf_mem 65534 _⟩
    simp only [Egfx.zgfx_wrap_messages, Egfx.ZGFX_MAX_SEGMENT_DATA, hne]
    rw [if_neg (by simpa using hne), if_neg (by omega)]
    rfl

/-- C3 witness: the single-segment branch on one concrete 3-byte PDU. -/
theorem C3_zgfx_wrap_messages_witness :
    Egfx.zgfx_wrap_messages [[1, 2, 3]] = [[0xE0, 0x04, 1, 2, 3]] := by
  have h := (C3_zgfx_wrap_messages [[1, 2, 3]] (by decide)).1 (by decide)
  simpa using h.1

/-! ## Claim C7 — send_frame contract -/

/-- C7: `send_frame` returns `true` only if a surface is created and
mapped (`surface_id` is `Some`), an event sender is registered, no
backpressure is reported, the pipeline accepts the frame, and a DVC
channel id is recorded; if any of these fails the call returns
`false`. -/
theorem C7_send_frame (st : Egfx.SendFrameSt) (h264 : List Nat) (w h ts : Nat) :
    (Egfx.send_frame st h264 w h ts = true →
      st.surface_id.isSome = true ∧ st.event_tx = true ∧ st.backpressure = false ∧
      st.accepted_frame_id.isSome = true ∧ st.dvc_channel_id.isSome = true) ∧
    (¬ (st.surface_id.isSome = true ∧ st.event_tx = true ∧ st.backpressure = false ∧
        st.accepted_frame_id.isSome = true ∧ st.dvc_channel_id.isSome = true) →
      Egfx.send_frame st h264 w h ts = false) := by
  obtain ⟨tx, sid, bp, acc, dvc, ok⟩ := st
  cases tx <;> cases sid <;> cases bp <;> cases acc <;> cases dvc <;> cases ok <;>
    simp [Egfx.send_frame]

/-- C7 witness: the contract applied to a concrete fully-configured
state, and to a concrete state without a mapped surface. -/
theorem C7_send_frame_witness :
    (Egfx.SendFrameSt.mk true (some 1) false (some 7) (some 3) true).surface_id.isSome
        = true ∧
    Egfx.send_frame (Egfx.SendFrameSt.mk true none false (some 7) (some 3) true)
        [] 640 480 0 = false :=
  ⟨((C7_send_frame (Egfx.SendFrameSt.mk true (some 1) false (some 7) (some 3) true)
      [] 640 480 0).1 (by decide)).1,
   (C7_send_frame (Egfx.SendFrameSt.mk true none false (some 7) (some 3) true)
      [] 640 480 0).2 (by decide)⟩

namespace Broker

/-- session.rs `SessionStateSerde`. -/
inductive SessionState
  | Starting
  | Active
  | Idle
  | Stopping
deriving DecidableEq, Repr

/-- session.rs `SessionEntry` (persisted session record). -/
structure SessionEntry where
  username : String
  port : Nat
  pid : Nat
  state : SessionState
  created_at : Int
  client_addr : String
  unit_name : String
deriving DecidableEq, Repr

/-- session.rs `RegistryInner`: the session map (modelled as an
association list keyed by username, one entry per key like the source's
`HashMap<String, SessionEntry>`), the port range and the session
limit. The state-file path only matters for I/O and is omitted. -/
structure RegistryInner where
  sessions : List SessionEntry
  port_range_start : Nat
  port_range_end : Nat
  max_sessions : Nat
deriving DecidableEq, Repr

/-- `HashMap::insert` on the username-keyed session map: replace the
entry with the same username if present, otherwise append. -/
def mapInsert (e : SessionEntry) (l : List SessionEntry) : List SessionEntry :=
  if l.any fun s => s.username = e.username then
    l.map fun s => if s.username = e.username then e else s
  else l ++ [e]

/-- session.rs `SessionRegistry::insert`: register a session under its
username (unconditionally; no capacity or port check). -/
def insert (st : RegistryInner) (e : SessionEntry) : RegistryInner :=
  { st with sessions := mapInsert e st.sessions }

/-- session.rs `SessionRegistry::remove`. -/
def remove (st : RegistryInner) (username : String) : RegistryInner :=
  { st with sessions := st.sessions.filter fun s => s.username ≠ username }

/-- session.rs `SessionRegistry::get`. -/
def get (st : RegistryInner) (username : String) : Option SessionEntry :=
  st.sessions.find? fun s => s.username = username

/-- session.rs `SessionRegistry::set_state`: update the state of the
session with the given username, if present. -/
def set_state (st : RegistryInner) (username : String) (s : SessionState) : RegistryInner :=
  { st with sessions := st.sessions.map fun e =>
      if e.username = username then { e with state := s } else e }

/-- session.rs `SessionRegistry::set_client_addr`. -/
def set_client_addr (st : RegistryInner) (username addr : String) : RegistryInner :=
  { st with sessions := st.sessions.map fun e =>
      if e.username = username then { e with client_addr := addr } else e }

/-- The ports currently held by session entries (session.rs
`allocate_port`'s `used_ports` set). -/
def usedPorts (st : RegistryInner) : List Nat :=
  st.sessions.map fun s => s.port

/-- The `for port in start..=end` scan of session.rs `allocate_port`:
the first port in `[lo, hi]` not contained in `used`. -/
def firstFreePort (lo hi : Nat) (used : List Nat) : Option Nat :=
  if lo > hi then none
  else if lo ∈ used then firstFreePort (lo + 1) hi used
  else some lo
termination_by hi + 1 - lo

/-- session.rs `SessionRegistry::allocate_port`: fail when the session
count has reached `max_sessions`, otherwise return the lowest port of
the configured range not held by any session, failing when the range is
exhausted. Reads the registry without modifying it. -/
def allocate_port (st : RegistryInner) : Except String Nat :=
  if st.sessions.length ≥ st.max_sessions then
    Except.error "maximum session limit reached"
  else
    match firstFreePort st.port_range_start st.port_range_end (usedPorts st) with
    | some p => Except.ok p
    | none => Except.error "no ports available"

/-- session.rs `SessionRegistry::load_state`: insert every entry of the
persisted file whose PID is still alive (`alive` models
`is_pid_alive`). -/
def load_state (st : RegistryInner) (entries : List SessionEntry)
    (alive : Nat → Bool) : RegistryInner :=
  entries.foldl (fun acc e => if alive e.pid then insert acc e else acc) st

end Broker

namespace Broker

theorem firstFreePort_some (lo hi : Nat) (used : List Nat) (p : Nat)
    (h : firstFreePort lo hi used = some p) :
    lo ≤ p ∧ p ≤ hi ∧ p ∉ used ∧
      ∀ q, lo ≤ q → q ≤ hi → q ∉ used → p ≤ q := by
  rw [firstFreePort] at h
  split at h
  · exact absurd h (by simp)
  · rename_i hle
    have hlohi : lo ≤ hi := by omega
    split at h
    · rename_i hmem
      have ih := firstFreePort_some (lo + 1) hi used p h
      refine ⟨by omega, ih.2.1, ih.2.2.1, ?_⟩
      intro q hq1 hq2 hq3
      rcases Nat.eq_or_lt_of_le hq1 with rfl | hlt
      · exact absurd hmem hq3
      · exact ih.2.2.2 q (by omega) hq2 hq3
    · rename_i hmem
      cases h
      exact ⟨Nat.le_refl _, by omega, hmem, fun q hq1 _ _ => hq1⟩
termination_by hi + 1 - lo
decreasing_by omega

theorem firstFreePort_none (lo hi : Nat) (used : List Nat) :
    firstFreePort lo hi used = none ↔ ∀ q, lo ≤ q → q ≤ hi → q ∈ used := by
  rw [firstFreePort]
  split
  · rename_i hgt
    simp only [true_iff]
    intro q h1 h2
    omega
  · rename_i hle
    have hlohi : lo ≤ hi := by omega
    split
    · rename_i hmem
      rw [firstFreePort_none (lo + 1) hi used]
      constructor
      · intro h q h1 h2
        rcases Nat.eq_or_lt_of_le h1 with rfl | hlt
        · exact hmem
        · exact h q (by omega) h2
      · intro h q h1 h2
        exact h q (by omega) h2
    · rename_i hmem
      constructor
      · intro h
        simp at h
      · intro h
        exact absurd (h lo (Nat.le_refl _) hlohi) hmem
termination_by hi + 1 - lo
decreasing_by omega

theorem allocate_port_ok (st : RegistryInner) (p : Nat)
    (h : allocate_port st = Except.ok p) :
    st.sessions.length < st.max_sessions ∧
    st.port_range_start ≤ p ∧ p ≤ st.port_range_end ∧ p ∉ usedPorts st ∧
    ∀ q, st.port_range_start ≤ q → q ≤ st.port_range_end →
      q ∉ usedPorts st → p ≤ q := by
  unfold allocate_port at h
  split at h
  · exact absurd h (by simp)
  · rename_i hlen
    split at h
    · rename_i q hq
      cases h
      exact ⟨by omega, firstFreePort_some _ _ _ _ hq⟩
    · exact absurd h (by simp)

theorem allocate_port_error (st : RegistryInner) :
    (∃ e, allocate_port st = Except.error e) ↔
      st.max_sessions ≤ st.sessions.length ∨
      ∀ q, st.port_range_start ≤ q → q ≤ st.port_range_end → q ∈ usedPorts st := by
  unfold allocate_port
  split
  · rename_i hlen
    constructor
    · intro _
      left
      omega
    · intro _
      exact ⟨_, rfl⟩
  · rename_i hlen
    split
    · rename_i q hq
      have hfacts := firstFreePort_some _ _ _ _ hq
      constructor
      · intro ⟨e, he⟩
        simp at he
      · intro h
        rcases h with h | h
        · omega
        · exact absurd (h q hfacts.1 hfacts.2.1) hfacts.2.2.1
    · rename_i hq
      constructor
      · intro _
        right
        exact (firstFreePort_none _ _ _).mp hq
      · intro _
        exact ⟨_, rfl⟩

end Broker

/-! ## Claim C6 — allocate_port -/

/-- C6: `allocate_port` returns the smallest port in
`[port_range_start, port_range_end]` held by no session entry; it
errors exactly when the session count is at least `max_sessions` or
every port of the range is held; it only reads the registry (the
embedding is a pure function of the state, matching the source's
read-only borrow). -/
theorem C6_allocate_port (st : Broker.RegistryInner) :
    (∀ p, Broker.allocate_port st = Except.ok p →
      st.sessions.length < st.max_sessions ∧
      st.port_range_start ≤ p ∧ p ≤ st.port_range_end ∧
      p ∉ Broker.usedPorts st ∧
      ∀ q, st.port_range_start ≤ q → q ≤ st.port_range_end →
        q ∉ Broker.usedPorts st → p ≤ q) ∧
    ((∃ e, Broker.allocate_port st = Except.error e) ↔
      st.max_sessions ≤ st.sessions.length ∨
      ∀ q, st.port_range_start ≤ q → q ≤ st.port_range_end →
        q ∈ Broker.usedPorts st) :=
  ⟨fun p hp => Broker.allocate_port_ok st p hp, Broker.allocate_port_error st⟩

/-- C6 witness: on a registry holding port 5000 with range 5000–5002
and room for one more session, `allocate_port` returns 5001, which is
free and in range. -/
theorem C6_allocate_port_witness :
    (Broker.RegistryInner.mk
        [Broker.SessionEntry.mk "alice" 5000 1 Broker.SessionState.Active 0 "" ""]
        5000 5002 2).sessions.length <
      (Broker.RegistryInner.mk
        [Broker.SessionEntry.mk "alice" 5000 1 Broker.SessionState.Active 0 "" ""]
        5000 5002 2).max_sessions ∧
    5001 ∉ Broker.usedPorts
      (Broker.RegistryInner.mk
        [Broker.SessionEntry.mk "alice" 5000 1 Broker.SessionState.Active 0 "" ""]
        5000 5002 2) := by
  have halloc : Broker.allocate_port
      (Broker.RegistryInner.mk
        [Broker.SessionEntry.mk "alice" 5000 1 Broker.SessionState.Active 0 "" ""]
        5000 5002 2) = Except.ok 5001 := by
    simp [Broker.allocate_port, Broker.firstFreePort, Broker.usedPorts]
  have h := (C6_allocate_port _).1 5001 halloc
  exact ⟨h.1, h.2.2.2.1⟩

namespace Broker

theorem replace_username (e s : SessionEntry) :
    (if s.username = e.username then e else s).username = s.username := by
  split
  · rename_i h
    rw [h]
  · rfl

theorem map_replace_eq_self (e : SessionEntry) (t : List SessionEntry)
    (h : ∀ s ∈ t, s.username ≠ e.username) :
    (t.map fun s => if s.username = e.username then e else s) = t := by
  induction t with
  | nil => rfl
  | cons x t ih =>
    have hx : x.username ≠ e.username := h x (by simp)
    simp only [List.map_cons, if_neg hx]
    rw [ih fun s hs => h s (by simp [hs])]

theorem mem_ports_replace {e : SessionEntry} {t : List SessionEntry} {p : Nat}
    (hp : p ∈ (t.map fun s => if s.username = e.username then e else s).map
      fun s => s.port) :
    p = e.port ∨ p ∈ t.map fun s => s.port := by
  simp only [List.map_map, List.mem_map, Function.comp] at hp ⊢
  obtain ⟨s, hs, hps⟩ := hp
  by_cases h : s.username = e.username
  · left
    rw [if_pos h] at hps
    omega
  · right
    rw [if_neg h] at hps
    exact ⟨s, hs, hps⟩

theorem ports_replace_nodup (e : SessionEntry) (l : List SessionEntry)
    (hkeys : (l.map fun s => s.username).Nodup)
    (hports : (l.map fun s => s.port).Nodup)
    (hfresh : e.port ∉ l.map fun s => s.port) :
    ((l.map fun s => if s.username = e.username then e else s).map
      fun s => s.port).Nodup := by
  induction l with
  | nil => simp
  | cons x t ih =>
    rw [List.map_cons, List.nodup_cons] at hkeys hports
    have hfx : e.port ≠ x.port := fun h => hfresh (by simp [h])
    have hft : e.port ∉ t.map fun s => s.port := fun h => hfresh (by simp [h])
    by_cases hx : x.username = e.username
    · have htail : (t.map fun s => if s.username = e.username then e else s) = t := by
        apply map_replace_eq_self
        intro s hs heq
        exact hkeys.1 (by rw [hx, ← heq]; exact List.mem_map_of_mem _ hs)
      simp only [List.map_cons, if_pos hx, htail, List.nodup_cons]
      exact ⟨hft, hports.2⟩
    · simp only [List.map_cons, if_neg hx, List.nodup_cons]
      constructor
      · intro hmem
        rcases mem_ports_replace hmem with h | h
        · exact hfx h.symm
        · exact hports.1 h
      · exact ih hkeys.2 hports.2 hft

/-- The registry invariant used for the amended C2: usernames are
unique (one map entry per user), ports are pairwise distinct, and the
session count respects the limit. -/
def RegistryInv (st : RegistryInner) : Prop :=
  (st.sessions.map fun s => s.username).Nodup ∧
  (st.sessions.map fun s => s.port).Nodup ∧
  st.sessions.length ≤ st.max_sessions

theorem insert_inv (st : RegistryInner) (e : SessionEntry)
    (hinv : RegistryInv st)
    (hlen : st.sessions.length < st.max_sessions)
    (hfresh : e.port ∉ usedPorts st) :
    RegistryInv (insert st e) := by
  obtain ⟨hkeys, hports, _⟩ := hinv
  unfold insert mapInsert
  split
  · rename_i hany
    refine ⟨?_, ?_, ?_⟩
    · have : ((st.sessions.map fun s => if s.username = e.username then e else s).map
          fun s => s.username) = st.sessions.map fun s => s.username := by
        rw [List.map_map]
        exact List.map_congr_left fun s _ => replace_username e s
      simpa [this]
    · simpa using ports_replace_nodup e st.sessions hkeys hports hfresh
    · simpa using by omega
  · refine ⟨?_, ?_, ?_⟩
    · simp only [List.map_append, List.map_cons, List.map_nil]
      rw [List.nodup_append]
      refine ⟨hkeys, List.nodup_singleton _, ?_⟩
      intro u hu hmem
      rename_i hany
      simp only [List.mem_singleton] at hmem
      rcases List.mem_map.mp hu with ⟨s, hs, hsu⟩
      exact hany (by rw [List.any_eq_true]; exact ⟨s, hs, by simp [hsu, hmem]⟩)
    · simp only [List.map_append, List.map_cons, List.map_nil]
      rw [List.nodup_append]
      refine ⟨hports, List.nodup_singleton _, ?_⟩
      intro p hp hmem
      simp only [List.mem_singleton] at hmem
      subst hmem
      exact hfresh (by simpa [usedPorts] using hp)
    · simp only [List.length_append, List.length_cons, List.length_nil]
      omega

theorem remove_inv (st : RegistryInner) (u : String) (hinv : RegistryInv st) :
    RegistryInv (remove st u) := by
  obtain ⟨hkeys, hports, hlen⟩ := hinv
  refine ⟨?_, ?_, ?_⟩
  · exact List.Nodup.sublist (List.Sublist.map _ (List.filter_sublist _)) hkeys
  · exact List.Nodup.sublist (List.Sublist.map _ (List.filter_sublist _)) hports
  · calc (remove st u).sessions.length ≤ st.sessions.length :=
          List.Sublist.length_le (List.filter_sublist _)
      _ ≤ st.max_sessions := hlen

theorem set_state_inv (st : RegistryInner) (u : String) (s : SessionState)
    (hinv : RegistryInv st) : RegistryInv (set_state st u s) := by
  obtain ⟨hkeys, hports, hlen⟩ := hinv
  refine ⟨?_, ?_, ?_⟩
  · have : ((set_state st u s).sessions.map fun e => e.username) =
        st.sessions.map fun e => e.username := by
      simp only [set_state, List.map_map]
      refine List.map_congr_left fun e _ => ?_
      by_cases h : e.username = u <;> simp [h]
    rw [this]
    exact hkeys
  · have : ((set_state st u s).sessions.map fun e => e.port) =
        st.sessions.map fun e => e.port := by
      simp only [set_state, List.map_map]
      refine List.map_congr_left fun e _ => ?_
      by_cases h : e.username = u <;> simp [h]
    rw [this]
    exact hports
  · simpa [set_state] using hlen

theorem set_client_addr_inv (st : RegistryInner) (u a : String)
    (hinv : RegistryInv st) : RegistryInv (set_client_addr st u a) := by
  obtain ⟨hkeys, hports, hlen⟩ := hinv
  refine ⟨?_, ?_, ?_⟩
  · have : ((set_client_addr st u a).sessions.map fun e => e.username) =
        st.sessions.map fun e => e.username := by
      simp only [set_client_addr, List.map_map]
      refine List.map_congr_left fun e _ => ?_
      by_cases h : e.username = u <;> simp [h]
    rw [this]
    exact hkeys
  · have : ((set_client_addr st u a).sessions.map fun e => e.port) =
        st.sessions.map fun e => e.port := by
      simp only [set_client_addr, List.map_map]
      refine List.map_congr_left fun e _ => ?_
      by_cases h : e.username = u <;> simp [h]
    rw [this]
    exact hports
  · simpa [set_client_addr] using hlen

/-- States of the registry reachable from an empty registry by the
guarded operation protocol of broker.rs: every `insert` uses a port
just returned by a successful `allocate_port` on the current state,
and `remove`, `set_state`, `set_client_addr` are unrestricted
(`allocate_port` itself does not change the state). `load_state` of an
arbitrary state file is not included. -/
inductive Reached : RegistryInner → Prop
  | new (lo hi max : Nat) : Reached ⟨[], lo, hi, max⟩
  | insert_alloc {st : RegistryInner} (e : SessionEntry) : Reached st →
      allocate_port st = Except.ok e.port → Reached (insert st e)
  | remove_op {st : RegistryInner} (u : String) : Reached st →
      Reached (remove st u)
  | set_state_op {st : RegistryInner} (u : String) (s : SessionState) :
      Reached st → Reached (set_state st u s)
  | set_client_addr_op {st : RegistryInner} (u a : String) : Reached st →
      Reached (set_client_addr st u a)

theorem Reached_inv {st : RegistryInner} (h : Reached st) : RegistryInv st := by
  induction h with
  | new lo hi max => exact ⟨List.nodup_nil, List.nodup_nil, by simp⟩
  | insert_alloc e _ halloc ih =>
      have hfacts := allocate_port_ok _ _ halloc
      exact insert_inv _ e ih hfacts.1 hfacts.2.2.2.1
  | remove_op u _ ih => exact remove_inv _ u ih
  | set_state_op u s _ ih => exact set_state_inv _ u s ih
  | set_client_addr_op u a _ ih => exact set_client_addr_inv _ u a ih

end Broker

/-! ## Claim C2 — registry invariants -/

/-- C2 counterexample: the registry alone does not maintain the claimed
invariants. `SessionRegistry::insert` performs no port or capacity
check, so the operation sequence `insert (usera, port 5000)`;
`insert (userb, port 5000)` on an empty registry with
`max_sessions = 1` reaches a state with two entries on port 5000 and
more entries than `max_sessions`. -/
theorem C2_registry_counterexample :
    ((Broker.insert (Broker.insert (Broker.RegistryInner.mk [] 5000 5001 1)
          (Broker.SessionEntry.mk "usera" 5000 0 Broker.SessionState.Starting 0 "" ""))
          (Broker.SessionEntry.mk "userb" 5000 0 Broker.SessionState.Starting 0 "" "")).sessions.map
        fun s => s.port) = [5000, 5000] ∧
    ¬ ((Broker.insert (Broker.insert (Broker.RegistryInner.mk [] 5000 5001 1)
          (Broker.SessionEntry.mk "usera" 5000 0 Broker.SessionState.Starting 0 "" ""))
          (Broker.SessionEntry.mk "userb" 5000 0 Broker.SessionState.Starting 0 "" "")).sessions.map
        fun s => s.port).Nodup ∧
    (Broker.insert (Broker.insert (Broker.RegistryInner.mk [] 5000 5001 1)
          (Broker.SessionEntry.mk "usera" 5000 0 Broker.SessionState.Starting 0 "" ""))
          (Broker.SessionEntry.mk "userb" 5000 0 Broker.SessionState.Starting 0 "" "")).max_sessions <
      (Broker.insert (Broker.insert (Broker.RegistryInner.mk [] 5000 5001 1)
          (Broker.SessionEntry.mk "usera" 5000 0 Broker.SessionState.Starting 0 "" ""))
          (Broker.SessionEntry.mk "userb" 5000 0 Broker.SessionState.Starting 0 "" "")).sessions.length := by
  decide

/-- C2 (amended): in every state reachable from an empty registry by
the guarded protocol — `remove`, `set_state`, `set_client_addr`
unrestricted, and every `insert` using a port returned by a successful
`allocate_port` on the current state — no two session entries hold the
same port and the session count is at most `max_sessions`; in
particular both hold immediately after any such insert. -/
theorem C2_registry_invariant (st : Broker.RegistryInner)
    (h : Broker.Reached st) :
    (st.sessions.map fun s => s.port).Nodup ∧
    st.sessions.length ≤ st.max_sessions :=
  ⟨(Broker.Reached_inv h).2.1, (Broker.Reached_inv h).2.2⟩

/-- C2 witness: the amended invariant at the state reached by one
guarded insert on an empty registry. -/
theorem C2_registry_invariant_witness :
    ((Broker.insert (Broker.RegistryInner.mk [] 5000 5001 2)
        (Broker.SessionEntry.mk "alice" 5000 0 Broker.SessionState.Starting 0 "" "")).sessions.map
      fun s => s.port).Nodup ∧
    (Broker.insert (Broker.RegistryInner.mk [] 5000 5001 2)
        (Broker.SessionEntry.mk "alice" 5000 0 Broker.SessionState.Starting 0 "" "")).sessions.length ≤
      (Broker.insert (Broker.RegistryInner.mk [] 5000 5001 2)
        (Broker.SessionEntry.mk "alice" 5000 0 Broker.SessionState.Starting 0 "" "")).max_sessions :=
  C2_registry_invariant _
    (Broker.Reached.insert_alloc
      (Broker.SessionEntry.mk "alice" 5000 0 Broker.SessionState.Starting 0 "" "")
      (Broker.Reached.new 5000 5001 2)
      (by simp [Broker.allocate_port, Broker.firstFreePort, Broker.usedPorts]))

namespace Broker

/-- UTF-8 byte length of a Unicode scalar value. -/
def utf8Len (c : Nat) : Nat :=
  if c < 0x80 then 1 else if c < 0x800 then 2 else if c < 0x10000 then 3 else 4

/-- UTF-8 encoding of one Unicode scalar value. -/
def utf8EncodeChar (c : Nat) : List Nat :=
  if c < 0x80 then [c]
  else if c < 0x800 then [0xC0 + c / 64, 0x80 + c % 64]
  else if c < 0x10000 then [0xE0 + c / 4096, 0x80 + c / 64 % 64, 0x80 + c % 64]
  else [0xF0 + c / 262144, 0x80 + c / 4096 % 64, 0x80 + c / 64 % 64, 0x80 + c % 64]

/-- UTF-8 encoding of a string of Unicode scalar values. -/
def utf8Encode (s : List Nat) : List Nat := s.flatMap utf8EncodeChar

/-- Strict UTF-8 decoding (Rust `str::from_utf8`): rejects stray or
missing continuation bytes, overlong encodings, surrogates, and values
above U+10FFFF. -/
def utf8Decode : List Nat → Option (List Nat)
  | [] => some []
  | b :: rest =>
    if b < 0x80 then
      (utf8Decode rest).map fun s => b :: s
    else if b < 0xC2 then none
    else if b < 0xE0 then
      match rest with
      | c1 :: rest2 =>
        if 0x80 ≤ c1 ∧ c1 < 0xC0 then
          (utf8Decode rest2).map fun s => ((b - 0xC0) * 64 + (c1 - 0x80)) :: s
        else none
      | [] => none
    else if b < 0xF0 then
      match rest with
      | c1 :: c2 :: rest2 =>
        if (0x80 ≤ c1 ∧ c1 < 0xC0) ∧ (0x80 ≤ c2 ∧ c2 < 0xC0) ∧
            0x800 ≤ (b - 0xE0) * 4096 + (c1 - 0x80) * 64 + (c2 - 0x80) ∧
            ¬ (0xD800 ≤ (b - 0xE0) * 4096 + (c1 - 0x80) * 64 + (c2 - 0x80) ∧
               (b - 0xE0) * 4096 + (c1 - 0x80) * 64 + (c2 - 0x80) ≤ 0xDFFF) then
          (utf8Decode rest2).map fun s =>
            ((b - 0xE0) * 4096 + (c1 - 0x80) * 64 + (c2 - 0x80)) :: s
        else none
      | _ => none
    else if b < 0xF5 then
      match rest with
      | c1 :: c2 :: c3 :: rest2 =>
        if (0x80 ≤ c1 ∧ c1 < 0xC0) ∧ (0x80 ≤ c2 ∧ c2 < 0xC0) ∧ (0x80 ≤ c3 ∧ c3 < 0xC0) ∧
            0x10000 ≤ (b - 0xF0) * 262144 + (c1 - 0x80) * 4096 + (c2 - 0x80) * 64 + (c3 - 0x80) ∧
            (b - 0xF0) * 262144 + (c1 - 0x80) * 4096 + (c2 - 0x80) * 64 + (c3 - 0x80) ≤ 0x10FFFF then
          (utf8Decode rest2).map fun s =>
            ((b - 0xF0) * 262144 + (c1 - 0x80) * 4096 + (c2 - 0x80) * 64 + (c3 - 0x80)) :: s
        else none
      | _ => none
    else none

/-- Modelled from the Rust standard library `char::to_lowercase`
(called by x224.rs but not part of this repository): exact on ASCII
and on İ (U+0130, whose Unicode SpecialCasing lowercase is i followed
by combining dot above U+0307); every other scalar maps to itself,
which is exact for all characters that are already lowercase or have
no lowercase mapping. -/
def charToLower (c : Nat) : List Nat :=
  if 65 ≤ c ∧ c ≤ 90 then [c + 32]
  else if c = 0x130 then [0x69, 0x307]
  else [c]

/-- Modelled from the Rust standard library `char::is_alphanumeric`:
exact on ASCII, on the Latin-1 letters U+00C0–U+00FF (excluding × and
÷), and on Latin Extended-A U+0100–U+017F; scalars outside these
ranges are treated as non-alphanumeric. -/
def rustIsAlphanumeric (c : Nat) : Bool :=
  decide ((48 ≤ c ∧ c ≤ 57) ∨ (65 ≤ c ∧ c ≤ 90) ∨ (97 ≤ c ∧ c ≤ 122) ∨
    (0xC0 ≤ c ∧ c ≤ 0xFF ∧ c ≠ 0xD7 ∧ c ≠ 0xF7) ∨ (0x100 ≤ c ∧ c ≤ 0x17F))

/-- The Rust standard library `char::is_whitespace` (the Unicode
White_Space property, a fixed 25-element set). -/
def rustIsWhitespace (c : Nat) : Bool :=
  decide (c = 9 ∨ c = 10 ∨ c = 11 ∨ c = 12 ∨ c = 13 ∨ c = 32 ∨ c = 0x85 ∨ c = 0xA0 ∨
    c = 0x1680 ∨ (0x2000 ≤ c ∧ c ≤ 0x200A) ∨ c = 0x2028 ∨ c = 0x2029 ∨ c = 0x202F ∨
    c = 0x205F ∨ c = 0x3000)

/-- Rust `str::trim`: strip leading and trailing whitespace. -/
def rustTrim (s : List Nat) : List Nat :=
  ((s.dropWhile rustIsWhitespace).reverse.dropWhile rustIsWhitespace).reverse

/-- Whether `pat` starts the byte list `hay`. -/
def startsWithBytes : List Nat → List Nat → Bool
  | _, [] => true
  | [], _ :: _ => false
  | a :: as', b :: bs => a = b && startsWithBytes as' bs

/-- Rust `str::find` for a plain pattern: the byte index of the first
occurrence of `pat` in `hay` (a match of valid UTF-8 inside valid
UTF-8 always lies on character boundaries). -/
def findSub (hay pat : List Nat) : Option Nat :=
  if startsWithBytes hay pat then some 0
  else
    match hay with
    | [] => none
    | _ :: t => (findSub t pat).map fun i => i + 1

/-- Rust string slicing `&s[i..]` at byte index `i` of a string given
as scalar values: `none` models the panic when `i` is out of range or
not a character boundary. -/
def dropBytesAt : List Nat → Nat → Option (List Nat)
  | s, 0 => some s
  | [], _ + 1 => none
  | c :: cs, i + 1 =>
    if utf8Len c ≤ i + 1 then dropBytesAt cs (i + 1 - utf8Len c) else none

/-- Rust string slicing `&s[..i]` at byte index `i`: `none` models the
panic when `i` is out of range or not a character boundary. -/
def takeBytesAt : List Nat → Nat → Option (List Nat)
  | _, 0 => some []
  | [], _ + 1 => none
  | c :: cs, i + 1 =>
    if utf8Len c ≤ i + 1 then
      (takeBytesAt cs (i + 1 - utf8Len c)).map fun v => c :: v
    else none

/-- The UTF-8 bytes of the lowercase text `cookie: mstshash=`. -/
def cookieMstshash : List Nat :=
  [99, 111, 111, 107, 105, 101, 58, 32, 109, 115, 116, 115, 104, 97, 115, 104, 61]

/-- x224.rs `extract_cookie_username`. Payload bytes after the 6-byte
X.224 CR header are decoded as UTF-8; the `cookie: mstshash=` marker is
searched case-insensitively by locating it in the lowercased copy of
the text, and the resulting *byte index into the lowercased text* is
used to slice the *original* text (as the source does). `Except.error`
models a Rust slice panic; `Except.ok none` a rejected or absent
cookie; `Except.ok (some u)` the accepted username `u` (scalar
values). -/
def extract_cookie_username (payload : List Nat) : Except Unit (Option (List Nat)) :=
  if payload.length ≤ 6 then Except.ok none
  else
    match utf8Decode (payload.drop 6) with
    | none => Except.ok none
    | some cookie_str =>
      match findSub (utf8Encode (cookie_str.flatMap charToLower)) cookieMstshash with
      | none => Except.ok none
      | some start =>
        match dropBytesAt cookie_str (start + cookieMstshash.length) with
        | none => Except.error ()
        | some remaining =>
          match takeBytesAt remaining
              ((findSub (utf8Encode remaining) [13, 10]).getD
                (utf8Encode remaining).length) with
          | none => Except.error ()
          | some value =>
            let username := rustTrim value
            if username.isEmpty then Except.ok none
            else if ¬ (username.all fun c =>
                rustIsAlphanumeric c || c == 95 || c == 45 || c == 46) then
              Except.ok none
            else if 64 < (utf8Encode username).length then Except.ok none
            else Except.ok (some username)

end Broker

namespace Broker

/-- The character set the spec claims for extracted usernames,
following the spec's words: `[A-Za-z0-9_.\-]` (ASCII letters, digits,
underscore, dot, hyphen). -/
def specAsciiSafeChar (c : Nat) : Prop :=
  (48 ≤ c ∧ c ≤ 57) ∨ (65 ≤ c ∧ c ≤ 90) ∨ (97 ≤ c ∧ c ≤ 122) ∨
  c = 95 ∨ c = 45 ∨ c = 46

instance (c : Nat) : Decidable (specAsciiSafeChar c) := by
  unfold specAsciiSafeChar
  infer_instance

end Broker

/-! ## Claim C1 — cookie username validation -/

/-- C1 counterexample: the source validates with Rust's Unicode-aware
`char::is_alphanumeric`, not the ASCII set of the claim. The payload
whose cookie value is `é` (U+00E9, UTF-8 `C3 A9`) yields
`Some "é"`, and `é` is outside `[A-Za-z0-9_.\-]`. -/
theorem C1_cookie_counterexample :
    Broker.extract_cookie_username
        ([0, 0, 0, 0, 0, 0] ++
          [67, 111, 111, 107, 105, 101, 58, 32, 109, 115, 116, 115, 104, 97, 115, 104, 61] ++
          [0xC3, 0xA9, 13, 10]) = Except.ok (some [0xE9]) ∧
    ¬ Broker.specAsciiSafeChar 0xE9 := by
  constructor
  · rfl
  · decide

/-- C1 (amended): whenever `extract_cookie_username` returns a
username `u`, `u` is non-empty, its UTF-8 encoding is at most 64 bytes,
and every character of `u` is alphanumeric in the Unicode sense
(`char::is_alphanumeric`) or one of `_`, `-`, `.`; a cookie value that
is empty, longer than 64 bytes, or containing any other character is
rejected (`none`). -/
theorem C1_cookie_username (payload u : List Nat)
    (h : Broker.extract_cookie_username payload = Except.ok (some u)) :
    u ≠ [] ∧ (Broker.utf8Encode u).length ≤ 64 ∧
    ∀ c ∈ u,
      (Broker.rustIsAlphanumeric c || c == 95 || c == 45 || c == 46) = true := by
  simp only [Broker.extract_cookie_username] at h
  split at h
  · simp at h
  · split at h
    · simp at h
    · split at h
      · simp at h
      · split at h
        · simp at h
        · split at h
          · simp at h
          · split at h
            · simp at h
            · split at h
              · simp at h
              · split at h
                · simp at h
                · rename_i hempty hall hlen
                  simp only [Except.ok.injEq, Option.some.injEq] at h
                  subst h
                  refine ⟨?_, by omega, ?_⟩
                  · intro hnil
                    exact hempty (by simp [hnil])
                  · intro c hc
                    rw [not_not] at hall
                    exact List.all_eq_true.mp hall c hc

/-- C1 witness: the amended theorem applied to the payload carrying
`Cookie: mstshash=testuser`, whose extracted username is `testuser`. -/
theorem C1_cookie_username_witness :
    [116, 101, 115, 116, 117, 115, 101, 114] ≠ ([] : List Nat) ∧
    (Broker.utf8Encode [116, 101, 115, 116, 117, 115, 101, 114]).length ≤ 64 :=
  ⟨(C1_cookie_username
      ([0, 0, 0, 0, 0, 0] ++
        [67, 111, 111, 107, 105, 101, 58, 32, 109, 115, 116, 115, 104, 97, 115, 104, 61] ++
        [116, 101, 115, 116, 117, 115, 101, 114, 13, 10])
      [116, 101, 115, 116, 117, 115, 101, 114] (by rfl)).1,
   (C1_cookie_username
      ([0, 0, 0, 0, 0, 0] ++
        [67, 111, 111, 107, 105, 101, 58, 32, 109, 115, 116, 115, 104, 97, 115, 104, 61] ++
        [116, 101, 115, 116, 117, 115, 101, 114, 13, 10])
      [116, 101, 115, 116, 117, 115, 101, 114] (by rfl)).2.1⟩

/-! ## Claim C10 — cookie extraction panic-freedom -/

/-- C10: the byte index found in the lowercased copy is *not* always a
valid position in the original string. In the payload whose cookie
text is `İCookie: mstshash=αb`, lowercasing `İ` (U+0130, 2 UTF-8
bytes) yields `i` + U+0307 (3 UTF-8 bytes), shifting the marker one
byte to the right in the lowercased copy; slicing the original at that
index lands inside the two-byte encoding of `α`, so
`&cookie_str[value_start..]` panics (out-of-boundary slice, modelled
as `Except.error`). -/
theorem C10_cookie_panic :
    Broker.extract_cookie_username
        ([0, 0, 0, 0, 0, 0] ++ [0xC4, 0xB0] ++
          [67, 111, 111, 107, 105, 101, 58, 32, 109, 115, 116, 115, 104, 97, 115, 104, 61] ++
          [0xCE, 0xB1, 98, 13, 10]) = Except.error () := by
  rfl

namespace Broker

theorem getD_take (l : List Nat) (n i d : Nat) (h : i < n) :
    (l.take n).getD i d = l.getD i d := by
  simp [List.getD_eq_getElem?_getD, List.getElem?_take, h]

theorem getD_drop (l : List Nat) (n i d : Nat) :
    (l.drop n).getD i d = l.getD (n + i) d := by
  simp [List.getD_eq_getElem?_getD, List.getElem?_drop]

/-- Outcome of `read_connection_request` on a byte stream: a parsed
request (username, raw packet to replay, remaining stream), an error
return, or a panic propagated from `extract_cookie_username`. -/
inductive RdOutcome
  | ok (username : Option (List Nat)) (raw_packet : List Nat) (rest : List Nat)
  | err
  | panicked
deriving DecidableEq, Repr

/-- The TPKT length field: big-endian 16-bit value at stream bytes 2–3. -/
def tpkt_len (s : List Nat) : Nat := s.getD 2 0 * 256 + s.getD 3 0

/-- x224.rs `read_connection_request` on the client byte stream `s`:
read the 4-byte TPKT header (version 3, big-endian length in
`[7, 8192]`), read the remaining `length - 4` payload bytes, require
the X.224 CR TPDU code `0xE` in the high nibble of payload byte 1, and
preserve the complete raw packet. `read_exact` fails when the stream
ends first. -/
def read_connection_request (s : List Nat) : RdOutcome :=
  if s.length < 4 then RdOutcome.err
  else
    let tpkt := s.take 4
    if tpkt.getD 0 0 ≠ 3 then RdOutcome.err
    else
      let total_length := tpkt.getD 2 0 * 256 + tpkt.getD 3 0
      if total_length < 7 then RdOutcome.err
      else if 8192 < total_length then RdOutcome.err
      else if (s.drop 4).length < total_length - 4 then RdOutcome.err
      else
        let payload := (s.drop 4).take (total_length - 4)
        if payload.length < 2 then RdOutcome.err
        else if payload.getD 1 0 / 16 ≠ 0xE then RdOutcome.err
        else
          match extract_cookie_username payload with
          | Except.error _ => RdOutcome.panicked
          | Except.ok u =>
              RdOutcome.ok u (tpkt ++ payload) ((s.drop 4).drop (total_length - 4))

/-- proxy.rs `proxy_connection`, restricted to the bytes written to the
backend server: first the buffered initial packet (`write_all`), then
the client's subsequent bytes (`copy_bidirectional`, client→server
direction). -/
def proxy_backend_bytes (initial_packet client_bytes : List Nat) : List Nat :=
  initial_packet ++ client_bytes

end Broker

/-! ## Claim C4 — connection-request parsing and replay -/

/-- C4: `read_connection_request` errors exactly when the TPKT version
byte is not 3, the TPKT length is below 7 or above 8192, the stream
ends before a complete packet, or the high nibble of payload byte 1
(stream byte 5) is not `0xE`; on success the raw packet is exactly the
first `tpkt_len` stream bytes (TPKT header followed by the payload),
and the bytes `proxy_connection` delivers to the backend are exactly
that raw packet followed by the client's subsequent bytes — so they
begin byte-for-byte with the X.224 CR read by the broker. -/
theorem C4_read_connection_request (s : List Nat) :
    (Broker.read_connection_request s = Broker.RdOutcome.err ↔
      s.length < 4 ∨ s.getD 0 0 ≠ 3 ∨ Broker.tpkt_len s < 7 ∨
      8192 < Broker.tpkt_len s ∨ s.length < Broker.tpkt_len s ∨
      s.getD 5 0 / 16 ≠ 14) ∧
    (∀ u raw rest, Broker.read_connection_request s = Broker.RdOutcome.ok u raw rest →
      raw = s.take (Broker.tpkt_len s) ∧ rest = s.drop (Broker.tpkt_len s) ∧
      ∀ extra, Broker.proxy_backend_bytes raw extra =
        s.take (Broker.tpkt_len s) ++ extra) := by
  have ht0 := Broker.getD_take s 4 0 0 (by omega)
  have ht2 := Broker.getD_take s 4 2 0 (by omega)
  have ht3 := Broker.getD_take s 4 3 0 (by omega)
  constructor
  · simp only [Broker.read_connection_request, Broker.tpkt_len]
    split
    · rename_i h4
      exact iff_of_true rfl (Or.inl h4)
    · rename_i h4
      split
      · rename_i h0
        rw [ht0] at h0
        exact iff_of_true rfl (Or.inr (Or.inl h0))
      · rename_i h0
        rw [ht0] at h0
        split
        · rename_i h7
          rw [ht2, ht3] at h7
          exact iff_of_true rfl (Or.inr (Or.inr (Or.inl h7)))
        · rename_i h7
          rw [ht2, ht3] at h7
          split
          · rename_i h8
            rw [ht2, ht3] at h8
            exact iff_of_true rfl (Or.inr (Or.inr (Or.inr (Or.inl h8))))
          · rename_i h8
            rw [ht2, ht3] at h8
            split
            · rename_i hshort
              rw [ht2, ht3, List.length_drop] at hshort
              refine iff_of_true rfl (Or.inr (Or.inr (Or.inr (Or.inr (Or.inl ?_)))))
              omega
            · rename_i hshort
              rw [ht2, ht3, List.length_drop] at hshort
              split
              · rename_i h2
                rw [ht2, ht3, List.length_take, List.length_drop] at h2
                exact absurd h2 (by omega)
              · rename_i h2
                split
                · rename_i hE
                  rw [ht2, ht3] at hE
                  rw [Broker.getD_take _ _ _ _ (by omega), Broker.getD_drop] at hE
                  refine iff_of_true rfl
                    (Or.inr (Or.inr (Or.inr (Or.inr (Or.inr ?_)))))
                  simpa using hE
                · rename_i hE
                  rw [ht2, ht3] at hE
                  rw [Broker.getD_take _ _ _ _ (by omega), Broker.getD_drop] at hE
                  refine iff_of_false ?_ ?_
                  · intro hmatch
                    split at hmatch <;> simp at hmatch
                  · intro hdisj
                    rcases hdisj with h | h | h | h | h | h
                    · omega
                    · exact h (not_not.mp h0)
                    · omega
                    · omega
                    · omega
                    · exact h (by simpa using hE)
  · intro u raw rest h
    simp only [Broker.read_connection_request] at h
    split at h
    · simp at h
    · rename_i h4
      split at h
      · simp at h
      · rename_i h0
        split at h
        · simp at h
        · rename_i h7
          rw [ht2, ht3] at h7
          split at h
          · simp at h
          · rename_i h8
            split at h
            · simp at h
            · rename_i hshort
              rw [ht2, ht3, List.length_drop] at hshort
              split at h
              · simp at h
              · split at h
                · simp at h
                · split at h
                  · simp at h
                  · rename_i u0 hx
                    simp only [Broker.RdOutcome.ok.injEq] at h
                    obtain ⟨-, hraw, hrest⟩ := h
                    have hL4 : 4 + (s.getD 2 0 * 256 + s.getD 3 0 - 4) =
                        s.getD 2 0 * 256 + s.getD 3 0 := by omega
                    have hraw' : raw = s.take (Broker.tpkt_len s) := by
                      rw [← hraw, ht2, ht3]
                      rw [← List.take_add s 4 (s.getD 2 0 * 256 + s.getD 3 0 - 4)]
                      rw [hL4]
                      rfl
                    refine ⟨hraw', ?_, ?_⟩
                    · rw [← hrest, ht2, ht3]
                      rw [List.drop_drop (s.getD 2 0 * 256 + s.getD 3 0 - 4) 4 s]
                      rw [hL4]
                      rfl
                    · intro extra
                      rw [hraw']
                      rfl

/-- C4 witness: a well-formed 37-byte stream carrying
`Cookie: mstshash=testuser`; its raw packet is exactly the first
`tpkt_len` bytes of the stream. -/
theorem C4_read_connection_request_witness :
    ([3, 0, 0, 37, 42, 0xE0, 0, 0, 0, 0] ++
        [67, 111, 111, 107, 105, 101, 58, 32, 109, 115, 116, 115, 104, 97, 115, 104, 61] ++
        [116, 101, 115, 116, 117, 115, 101, 114, 13, 10] : List Nat) =
      (([3, 0, 0, 37, 42, 0xE0, 0, 0, 0, 0] ++
        [67, 111, 111, 107, 105, 101, 58, 32, 109, 115, 116, 115, 104, 97, 115, 104, 61] ++
        [116, 101, 115, 116, 117, 115, 101, 114, 13, 10] : List Nat).take
          (Broker.tpkt_len
            ([3, 0, 0, 37, 42, 0xE0, 0, 0, 0, 0] ++
              [67, 111, 111, 107, 105, 101, 58, 32, 109, 115, 116, 115, 104, 97, 115, 104, 61] ++
              [116, 101, 115, 116, 117, 115, 101, 114, 13, 10]))) :=
  ((C4_read_connection_request
      ([3, 0, 0, 37, 42, 0xE0, 0, 0, 0, 0] ++
        [67, 111, 111, 107, 105, 101, 58, 32, 109, 115, 116, 115, 104, 97, 115, 104, 61] ++
        [116, 101, 115, 116, 117, 115, 101, 114, 13, 10])).2
    (some [116, 101, 115, 116, 117, 115, 101, 114])
    ([3, 0, 0, 37, 42, 0xE0, 0, 0, 0, 0] ++
      [67, 111, 111, 107, 105, 101, 58, 32, 109, 115, 116, 115, 104, 97, 115, 104, 61] ++
      [116, 101, 115, 116, 117, 115, 101, 114, 13, 10])
    [] (by rfl)).1

namespace Broker

/-- broker.rs `handle_connection`, session-creation path (steps 4–5):
allocate a port, insert a `Starting` entry, spawn the per-user server,
record its unit name, wait for readiness, then mark the session
`Active`. Outcomes of the external calls are parameters: `env_ok`
models `discover_user_env`, `spawn_result` the unit name returned by
`spawn_user_server` (`none` = spawn failed), `ready` the outcome of
the 30-second `wait_for_server_ready`. Returns the resulting registry
and whether the path succeeded; every `?`-return in the source maps to
a `false` result with the registry exactly as the source leaves it. -/
def create_session (st : RegistryInner) (username peer_addr : String) (now : Int)
    (env_ok : Bool) (spawn_result : Option String) (ready : Bool) :
    RegistryInner × Bool :=
  match allocate_port st with
  | Except.error _ => (st, false)
  | Except.ok port =>
    if ¬ env_ok then (st, false)
    else
      let st1 := insert st
        (SessionEntry.mk username port 0 SessionState.Starting now peer_addr "")
      match spawn_result with
      | none => (st1, false)
      | some unit_name =>
        let st2 :=
          match get st1 username with
          | some e => insert st1 { e with unit_name := unit_name,
                                          state := SessionState.Starting }
          | none => st1
        if ¬ ready then (st2, false)
        else (set_state st2 username SessionState.Active, true)

end Broker

/-! ## Claim C5 — cleanup after spawn failure or readiness timeout -/

/-- C5: on a routed connection for `alice` against an empty registry,
if spawning the backend fails, or if the readiness wait times out, the
connection is rejected (`false`) but the `Starting` entry inserted for
`alice` is still in the registry — the source returns the error with
`?` without removing it, contrary to the claim. -/
theorem C5_starting_entry_left :
    (Broker.create_session (Broker.RegistryInner.mk [] 5000 5001 4)
        "alice" "addr1" 0 true none true).2 = false ∧
    Broker.get (Broker.create_session (Broker.RegistryInner.mk [] 5000 5001 4)
        "alice" "addr1" 0 true none true).1 "alice" =
      some (Broker.SessionEntry.mk "alice" 5000 0 Broker.SessionState.Starting 0
        "addr1" "") ∧
    (Broker.create_session (Broker.RegistryInner.mk [] 5000 5001 4)
        "alice" "addr1" 0 true (some "u1") false).2 = false ∧
    Broker.get (Broker.create_session (Broker.RegistryInner.mk [] 5000 5001 4)
        "alice" "addr1" 0 true (some "u1") false).1 "alice" =
      some (Broker.SessionEntry.mk "alice" 5000 0 Broker.SessionState.Starting 0
        "addr1" "u1") := by
  have halloc : Broker.allocate_port (Broker.RegistryInner.mk [] 5000 5001 4) =
      Except.ok 5000 := by
    simp [Broker.allocate_port, Broker.firstFreePort, Broker.usedPorts]
  refine ⟨?_, ?_, ?_, ?_⟩ <;>
    simp [Broker.create_session, halloc, Broker.insert, Broker.mapInsert,
      Broker.get, Broker.set_state]
